import Mathlib

/-!
Verification of the ResumeMate skill-extraction and scoring engine.

Texts are modelled as lists of characters (`Str`), bytes as natural
numbers below 256, machine floats as exact rationals, and the two
network-dependent effects (the TF-IDF vectorizer of scikit-learn and the
Hugging Face inference call) as explicit outcome parameters, so that
every definition below is an executable function of its inputs.
-/

namespace ResumeMate

/-- Texts are lists of characters. -/
abbrev Str := List Char

/-- Coerce a string literal into the character-list representation. -/
def lit (s : String) : Str := s.data

/-- Python `str.lower()` (ASCII model, character by character). -/
def lowerL (s : Str) : Str := s.map Char.toLower

/-- Python regex `\w`: a word character (letter, digit or underscore). -/
def isWordChar (c : Char) : Bool := c.isAlphanum || c == '_'

/-- Wordness of the character on one side of a position; beyond the ends of
the text there is no character, which counts as non-word. -/
def wordness : Option Char → Bool
  | none => false
  | some c => isWordChar c

/-- Python regex `\b`: a word boundary sits between two positions whose
wordness differs. -/
def bAt (l r : Option Char) : Bool := wordness l != wordness r

/-- `pfxOf n h`: the list `n` starts the list `h`. -/
def pfxOf : Str → Str → Bool
  | [], _ => true
  | _ :: _, [] => false
  | a :: as, b :: bs => a == b && pfxOf as bs

/-- Python `needle in hay` on strings: substring containment. -/
def hasSub (needle : Str) : Str → Bool
  | [] => needle.isEmpty
  | c :: rest => pfxOf needle (c :: rest) || hasSub needle rest

/-- `sfxOf n h`: the list `n` ends the list `h` (Python `str.endswith`). -/
def sfxOf (n h : Str) : Bool := pfxOf n.reverse h.reverse

/-- Python `sep.join(parts)`. -/
def joinWith (sep : Str) : List Str → Str
  | [] => []
  | [x] => x
  | x :: y :: rest => x ++ sep ++ joinWith sep (y :: rest)

/-- Python `str.strip()`: drop whitespace from both ends. -/
def stripL (s : Str) : Str :=
  ((s.dropWhile Char.isWhitespace).reverse.dropWhile Char.isWhitespace).reverse

/-- Scanner of `runsOf`, structurally recursive on a fuel argument that the
caller sets to the text length (each step consumes at least one
character, so the fuel never runs out). -/
def runsOfF (cls : Char → Bool) : ℕ → Str → List Str
  | 0, _ => []
  | _, [] => []
  | fuel + 1, c :: rest =>
    if cls c then (c :: rest.takeWhile cls) :: runsOfF cls fuel (rest.dropWhile cls)
    else runsOfF cls fuel rest

/-- The maximal runs of characters satisfying `cls`, in order: how
`re.findall` with a bare character-class quantifier decomposes a text. -/
def runsOf (cls : Char → Bool) (s : Str) : List Str := runsOfF cls s.length s

/-- Round half to even, the rounding of Python's `round`. -/
def roundHalfEven (q : ℚ) : ℤ :=
  let f : ℤ := ⌊q⌋
  let r : ℚ := q - (f : ℚ)
  if r < 1/2 then f
  else if 1/2 < r then f + 1
  else if f % 2 = 0 then f else f + 1

/-- Python `round(x, 2)`. -/
def round2 (q : ℚ) : ℚ := ((roundHalfEven (q * 100) : ℤ) : ℚ) / 100

/-- Python `max(0, min(100, x))`. -/
def clamp100 (q : ℚ) : ℚ := max 0 (min 100 q)

namespace Scorer

/-- The character class of `re.findall(r"[a-zA-Z\+\#\.\-]{2,}", ...)` in
`ats_score_local` (utils/scorer.py): letters and `+ # . -`, no digits. -/
def clsJd (c : Char) : Bool :=
  c.isAlpha || c == '+' || c == '#' || c == '.' || c == '-'

/-- `re.findall(r"[a-zA-Z\+\#\.\-]{2,}", job_desc.lower())`: the maximal
class runs of length at least 2, in order. -/
def jd_keywords (job_desc : Str) : List Str :=
  (runsOf clsJd (lowerL job_desc)).filter (fun t => 2 ≤ t.length)

/-- The dedup-preserving-order loop of `ats_score_local`: `seen`/`out`
collapse into one accumulator since `seen = set(out)`. -/
def dedupGo (acc : List Str) : List Str → List Str
  | [] => acc
  | k :: ks => if k ∈ acc then dedupGo acc ks else dedupGo (acc ++ [k]) ks

/-- `jd_unique` of `ats_score_local`: candidate keywords of the job text,
deduplicated preserving first occurrence. -/
def jd_unique (job_desc : Str) : List Str := dedupGo [] (jd_keywords job_desc)

/-- `matched = [k for k in jd_unique if k in resume_lower]`. -/
def atsMatched (resume_text job_desc : Str) : List Str :=
  (jd_unique job_desc).filter (fun k => hasSub k (lowerL resume_text))

/-- `missing = [k for k in jd_unique if k not in resume_lower]`. -/
def atsMissing (resume_text job_desc : Str) : List Str :=
  (jd_unique job_desc).filter (fun k => !hasSub k (lowerL resume_text))

/-- The result dict of `ats_score_local`. -/
structure AtsResult where
  ats_score : ℚ
  matched_keywords : List Str
  missing_keywords : List Str
  suggestions : Str
deriving DecidableEq

/-- `ats_score_local(resume_text, job_desc)` of utils/scorer.py. The TF-IDF
cosine similarity of the two texts is an outcome parameter `sim` (`none`
models the `except` branch where vectorization fails and `sim = 0.0`). -/
def ats_score_local (sim : Option ℚ) (resume_text job_desc : Str) : AtsResult :=
  let matched := atsMatched resume_text job_desc
  let missing := atsMissing resume_text job_desc
  let simv : ℚ := sim.getD 0
  let presence_frac : ℚ :=
    (matched.length : ℚ) / ((max 1 (jd_unique job_desc).length : ℕ) : ℚ)
  let final_score := round2 (clamp100 (0.6 * simv + 0.4 * presence_frac * 100))
  let sug1 : List Str :=
    if 0 < missing.length then
      [lit "Consider adding keywords: " ++ joinWith (lit ", ") (missing.take 8)]
    else []
  let sug2 : List Str :=
    if presence_frac < 1/2 then
      [lit "Try listing key skills and tools prominently in the summary and skills section."]
    else []
  let sugs := sug1 ++ sug2
  { ats_score := final_score
    matched_keywords := matched.take 50
    missing_keywords := missing.take 50
    suggestions := if sugs = [] then lit "Good match!" else joinWith (lit " ") sugs }

/-- A record of the static job catalog: `{title, keywords}`. -/
structure Job where
  title : Str
  keywords : List Str
deriving DecidableEq

/-- One entry of the result list of `score_against_jobs`. -/
structure MatchResult where
  title : Str
  score : ℚ
  matched : List Str
  missing : List Str
  job_keywords : List Str
deriving DecidableEq

/-- The per-job body of the loop of `score_against_jobs`: presence-based
matched/missing against the job's keyword list, TF-IDF similarity as an
outcome parameter (`none` models the failed-vectorizer branch where the
score stays `0.0`). -/
def scoreOne (sim : Option (Str → ℚ)) (resume_lower : Str) (job : Job) : MatchResult :=
  let keywords := job.keywords
  let job_text := joinWith (lit " ") keywords
  let score : ℚ := match sim with
    | some f => f job_text * 100
    | none => 0
  { title := job.title
    score := round2 score
    matched := keywords.filter (fun k => hasSub (lowerL k) resume_lower)
    missing := keywords.filter (fun k => !hasSub (lowerL k) resume_lower)
    job_keywords := keywords }

/-- Stable insertion step of the descending sort: an element is placed
before the first element whose score is not larger, so among equal scores
earlier elements stay first — the behaviour of Python's stable
`sorted(..., reverse=True)`. -/
def insertDesc (x : MatchResult) : List MatchResult → List MatchResult
  | [] => [x]
  | y :: ys => if y.score ≤ x.score then x :: y :: ys else y :: insertDesc x ys

/-- Stable sort by descending score, extensionally `sorted(results,
key=lambda x: x["score"], reverse=True)`. -/
def sortDesc : List MatchResult → List MatchResult
  | [] => []
  | x :: xs => insertDesc x (sortDesc xs)

/-- `score_against_jobs(resume_text, jobs_db, top_n=6)` of utils/scorer.py. -/
def score_against_jobs (sim : Option (Str → ℚ)) (resume_text : Str)
    (jobs_db : List Job) (top_n : ℕ := 6) : List MatchResult :=
  (sortDesc (jobs_db.map (scoreOne sim (lowerL resume_text)))).take top_n

end Scorer

namespace App

/-- The `KNOWN_SKILLS` set of app.py, in the order of the source literal. -/
def KNOWN_SKILLS : List Str :=
  [lit "python", lit "java", lit "c++", lit "javascript", lit "html", lit "css",
   lit "sql", lit "machine learning", lit "deep learning", lit "nlp",
   lit "data analysis", lit "excel", lit "power bi", lit "tableau", lit "cloud",
   lit "aws", lit "azure", lit "flask", lit "django", lit "react",
   lit "node.js", lit "git", lit "docker", lit "kubernetes"]

/-- `re.search(rf"\b{re.escape(phrase)}\b", t)` tried at one position: the
escaped phrase matches literally here, with a word boundary before its
first character and one after its last. -/
def matchHere (phrase : Str) (prev : Option Char) (t : Str) : Bool :=
  pfxOf phrase t && bAt prev phrase.head? && bAt phrase.getLast? ((t.drop phrase.length).head?)

/-- `re.search(rf"\b{re.escape(phrase)}\b", t)`: the boundary-delimited
literal phrase occurs at some position of `t`; `prev` is the character just
before the current position (`none` at the start of the text). -/
def litSearch (phrase : Str) (prev : Option Char) : Str → Bool
  | [] => matchHere phrase prev []
  | c :: rest => matchHere phrase prev (c :: rest) || litSearch phrase (some c) rest

/-- `extract_skills_from_text` of app.py: lowercase the text and keep the
known skills found by word-boundary regex search. -/
def extract_skills_from_text (text : Str) : List Str :=
  KNOWN_SKILLS.filter (fun s => litSearch s none (lowerL text))

/-- Lexicographic comparison of texts by character code, the order Python's
`sorted` puts strings in. -/
def strLe : Str → Str → Bool
  | [], _ => true
  | _ :: _, [] => false
  | a :: as, b :: bs => a < b || (a == b && strLe as bs)

/-- Stable insertion step for sorting skill lists alphabetically. -/
def insertStr (x : Str) : List Str → List Str
  | [] => [x]
  | y :: ys => if strLe x y then x :: y :: ys else y :: insertStr x ys

/-- `sorted(list(s))` on a list of texts. -/
def sortStrs : List Str → List Str
  | [] => []
  | x :: xs => insertStr x (sortStrs xs)

/-- The result dict of app.py's `ats_score_local`. -/
structure AppAtsResult where
  ats_score : ℕ
  matched_skills : List Str
  missing_skills : List Str
  suggestions : Str
deriving DecidableEq

/-- `ats_score_local(resume_text, job_desc)` of app.py: dictionary skills of
both texts, set intersection and difference, and a percentage guarded by
`if job_skills` so an empty job-skill set scores 0 instead of dividing by
zero. -/
def ats_score_local (resume_text job_desc : Str) : AppAtsResult :=
  let resume_skills := extract_skills_from_text resume_text
  let job_skills := extract_skills_from_text job_desc
  let matched := sortStrs (job_skills.filter (fun s => s ∈ resume_skills))
  let missing := sortStrs (job_skills.filter (fun s => s ∉ resume_skills))
  let score : ℕ := if job_skills = [] then 0 else matched.length * 100 / job_skills.length
  { ats_score := score
    matched_skills := matched
    missing_skills := missing
    suggestions :=
      lit "Add missing skills to improve your ATS score. Missing: " ++
        (if missing = [] then lit "None" else joinWith (lit ", ") missing) }

/-- A boundary-delimited occurrence of a phrase in a text: the property the
word-boundary regex of Strategy A decides. -/
def BoundaryOccur (phrase text : Str) : Prop :=
  ∃ pre post, text = pre ++ phrase ++ post ∧
    bAt pre.getLast? phrase.head? = true ∧
    bAt phrase.getLast? post.head? = true

/-- The character just before the current scan position: the last character
of the consumed text `pre`, or the initial `prev` when nothing is consumed. -/
def lastOr (prev : Option Char) (pre : Str) : Option Char :=
  match pre.getLast? with
  | some c => some c
  | none => prev

end App

namespace Nlp

/-- The `COMMON_SKILLS` list of utils/nlp.py, in source order; note the
one-character entry `"c"`. -/
def COMMON_SKILLS : List Str :=
  [lit "python", lit "java", lit "c++", lit "c", lit "javascript", lit "react",
   lit "angular", lit "nodejs", lit "sql", lit "mysql", lit "postgresql",
   lit "mongodb", lit "tensorflow", lit "pytorch", lit "machine learning",
   lit "deep learning", lit "nlp", lit "computer vision", lit "pandas",
   lit "numpy", lit "scikit-learn", lit "aws", lit "azure", lit "docker",
   lit "kubernetes", lit "git", lit "html", lit "css", lit "bootstrap",
   lit "rest", lit "api", lit "flask", lit "django", lit "linux"]

/-- The character class of `re.findall(r"\b[a-zA-Z0-9\+\#\.\-]{3,}\b", text)`
in `simple_skill_extractor`: letters, digits and `+ # . -`. -/
def clsTok (c : Char) : Bool :=
  c.isAlpha || c.isDigit || c == '+' || c == '#' || c == '.' || c == '-'

/-- The next character of the text after `m` matched characters of the run
(`after` is the first character past the whole run). -/
def nextCh (run : Str) (after : Option Char) (m : ℕ) : Option Char :=
  match (run.drop m).head? with
  | some c => some c
  | none => after

/-- Greedy backtracking of `[...]{3,}\b` over a class run: the largest
`m ≤ k` with `3 ≤ m` such that a word boundary holds after the first `m`
characters of the run. -/
def pickGo (run : Str) (after : Option Char) : ℕ → Option ℕ
  | 0 => none
  | m + 1 =>
    if 3 ≤ m + 1 ∧ bAt (run.take (m + 1)).getLast? (nextCh run after (m + 1)) then
      some (m + 1)
    else pickGo run after m

/-- The scanning loop of `re.findall(r"\b[a-zA-Z0-9\+\#\.\-]{3,}\b", text)`:
at each position, require a leading word boundary, take the maximal class
run, backtrack the quantifier for the trailing boundary, emit the match and
continue past it. -/
def scan3 : ℕ → Option Char → Str → List Str
  | 0, _, _ => []
  | _, _, [] => []
  | fuel + 1, prev, c :: rest =>
    if clsTok c ∧ bAt prev (some c) = true then
      let run := c :: rest.takeWhile clsTok
      let after := (rest.dropWhile clsTok).head?
      match pickGo run after run.length with
      | some m => run.take m :: scan3 fuel (run.take m).getLast? (rest.drop (m - 1))
      | none => scan3 fuel (some c) rest
    else scan3 fuel (some c) rest

/-- `re.findall(r"\b[a-zA-Z0-9\+\#\.\-]{3,}\b", text)`. -/
def findall3 (s : Str) : List Str := scan3 s.length none s

/-- The `COMMON_SKILLS` loop of `simple_skill_extractor`, with its early
`return` once `max_keywords` skills are found (`Sum.inl`); `Sum.inr` carries
the accumulator into the token loop. -/
def commonPhase (text_lower : Str) (maxk : ℕ) : List Str → List Str → List Str ⊕ List Str
  | [], found => Sum.inr found
  | skill :: rest, found =>
    if hasSub skill text_lower ∧ skill ∉ found then
      let found' := found ++ [skill]
      if maxk ≤ found'.length then Sum.inl found'
      else commonPhase text_lower maxk rest found'
    else commonPhase text_lower maxk rest found

/-- The generic words `simple_skill_extractor` ignores. -/
def stopwords : List Str :=
  [lit "the", lit "and", lit "for", lit "with", lit "this", lit "that", lit "from"]

/-- The token loop of `simple_skill_extractor`: lowercase each tech-like
token, skip stopwords and duplicates, stop adding at `max_keywords`. -/
def tokenPhase (maxk : ℕ) : List Str → List Str → List Str
  | [], found => found
  | t :: ts, found =>
    let tl := lowerL t
    if tl ∉ found ∧ found.length < maxk then
      if tl ∈ stopwords then tokenPhase maxk ts found
      else tokenPhase maxk ts (found ++ [tl])
    else tokenPhase maxk ts found

/-- `simple_skill_extractor(text, max_keywords=30)` of utils/nlp.py. -/
def simple_skill_extractor (text : Str) (max_keywords : ℕ := 30) : List Str :=
  match commonPhase (lowerL text) max_keywords COMMON_SKILLS [] with
  | Sum.inl found => found
  | Sum.inr found => (tokenPhase max_keywords (findall3 text) found).take max_keywords

/-- The JSON values a model endpoint may answer with. -/
inductive Json where
  | jnull
  | jbool (b : Bool)
  | jnum (q : ℚ)
  | jstr (s : Str)
  | jarr (items : List Json)
  | jobj (fields : List (Str × Json))

/-- The observable outcome of the `requests.post` call: a network error or
timeout (the raised exception), or an HTTP response with a status code and
a body (`none` when `resp.json()` cannot parse it). -/
inductive HfOutcome where
  | netErr
  | resp (status : ℕ) (body : Option Json)

/-- Decimal digits of a natural number, for the `str(data)` fallback. -/
def natToStr (n : ℕ) : Str :=
  (Nat.toDigits 10 n)

/-- A crude Python `str(...)` of a JSON value, the fallback stringify branch
of `call_hf_keyphrase_model`. -/
def pyStr : Json → Str
  | Json.jnull => lit "None"
  | Json.jbool true => lit "True"
  | Json.jbool false => lit "False"
  | Json.jnum q => natToStr q.num.natAbs ++ lit "/" ++ natToStr q.den
  | Json.jstr s => s
  | Json.jarr items =>
      lit "[" ++ joinWith (lit ", ") (items.attach.map (fun a => pyStr a.1)) ++ lit "]"
  | Json.jobj fields =>
      [Char.ofNat 123] ++
        joinWith (lit ", ")
          (fields.attach.map (fun f => f.1.1 ++ lit ": " ++ pyStr f.1.2)) ++
        [Char.ofNat 125]
decreasing_by
  · have h := List.sizeOf_lt_of_mem a.2
    simp only [Json.jarr.sizeOf_spec]
    omega
  · obtain ⟨⟨a, b⟩, hf⟩ := f
    have h := List.sizeOf_lt_of_mem hf
    simp only [Json.jobj.sizeOf_spec, Prod.mk.sizeOf_spec] at *
    omega

/-- A separator of `re.split(r"[,\n;]+", joined)`. -/
def isSepC (c : Char) : Bool := c == ',' || c == '\n' || c == ';'

/-- The splitting loop of `re.split(r"[,\n;]+", joined)`: segments between
maximal separator runs, keeping empty edge segments. -/
def splitGo : ℕ → Str → Str → List Str
  | _, acc, [] => [acc.reverse]
  | 0, acc, rest => [acc.reverse ++ rest]
  | fuel + 1, acc, c :: rest =>
    if isSepC c then acc.reverse :: splitGo fuel [] (rest.dropWhile isSepC)
    else splitGo fuel (c :: acc) rest

/-- `re.split(r"[,\n;]+", joined)`. -/
def splitSeps (s : Str) : List Str := splitGo s.length [] s

/-- The dedupe-and-cap loop at the end of `call_hf_keyphrase_model`: keep
first occurrences, stop once `max_keywords` keywords are out. -/
def dedupCap (maxk : ℕ) : List Str → List Str → List Str
  | acc, [] => acc
  | acc, k :: ks =>
    let acc' := if k ∈ acc then acc else acc ++ [k]
    if maxk ≤ acc'.length then acc' else dedupCap maxk acc' ks

/-- Splitting, cleaning, deduplication and cap applied to the joined model
output in `call_hf_keyphrase_model`. -/
def postJoin (joined : Str) (maxk : ℕ) : List Str :=
  let candidates := splitSeps joined
  let cleaned := (candidates.filter (fun c => 2 ≤ (stripL c).length)).map
    (fun c => lowerL (stripL c))
  dedupCap maxk [] cleaned

/-- One item of the response list, as `call_hf_keyphrase_model` reads it: a
dict contributes its `generated_text` value, a string contributes itself,
anything else is skipped. -/
def partOf : Json → Option Json
  | Json.jobj fs =>
    match fs.find? (fun f => decide (f.1 = lit "generated_text")) with
    | some f => some f.2
    | none => none
  | Json.jstr s => some (Json.jstr s)
  | _ => none

/-- A part is a string (otherwise `" ".join(parts)` raises `TypeError`,
which the enclosing `except` turns into `[]`). -/
def asStr : Json → Option Str
  | Json.jstr s => some s
  | _ => none

/-- `call_hf_keyphrase_model(text, max_keywords=20)` of utils/nlp.py, with
the HTTP call abstracted into `outcome`. Every failure path of the source —
missing token, network error, `raise_for_status` on a non-success status,
an unparsable JSON body, an `error` field in a dict response, or a
`TypeError` while joining non-string parts — returns `[]`. -/
def call_hf_keyphrase_model (token : Option Str) (outcome : HfOutcome)
    (text : Str) (max_keywords : ℕ := 20) : List Str :=
  match token with
  | none => []
  | some _ =>
    match outcome with
    | HfOutcome.netErr => []
    | HfOutcome.resp status body =>
      if 400 ≤ status then []
      else
        match body with
        | none => []
        | some data =>
          match data with
          | Json.jobj fields =>
            if fields.any (fun f => decide (f.1 = lit "error")) then []
            else postJoin (pyStr (Json.jobj fields)) max_keywords
          | Json.jarr items =>
            let parts := items.filterMap partOf
            match parts.mapM asStr with
            | some strs => postJoin (joinWith (lit " ") strs) max_keywords
            | none => []
          | Json.jstr s => postJoin s max_keywords
          | other => postJoin (pyStr other) max_keywords

/-- `extract_skills_from_text(text, max_keywords=30)` of utils/nlp.py:
strip, prefer the Hugging Face model when a token is configured, fall back
to `simple_skill_extractor` when it yields nothing. -/
def extract_skills_from_text (token : Option Str) (outcome : HfOutcome)
    (text : Str) (max_keywords : ℕ := 30) : List Str :=
  let t := stripL text
  if t = [] then []
  else
    match token with
    | some _ =>
      let keywords := call_hf_keyphrase_model token outcome t max_keywords
      if keywords ≠ [] then keywords else simple_skill_extractor t max_keywords
    | none => simple_skill_extractor t max_keywords

/-- The failure modes of the external call named by the spec: network error
or timeout, non-success HTTP status, unparsable body, or a JSON record
carrying an `error` field. -/
def FailingOutcome : HfOutcome → Prop
  | HfOutcome.netErr => True
  | HfOutcome.resp status body =>
    400 ≤ status ∨ body = none ∨
      ∃ fields, body = some (Json.jobj fields) ∧ ∃ f ∈ fields, f.1 = lit "error"

end Nlp

namespace Parser

/-- A UTF-8 continuation byte. -/
def contB (b : ℕ) : Bool := 0x80 ≤ b && b < 0xC0

/-- The allowed second byte of a 3-byte sequence (excludes overlong forms
and surrogates). -/
def cont2ok (b b2 : ℕ) : Bool :=
  if b = 0xE0 then 0xA0 ≤ b2 && b2 < 0xC0
  else if b = 0xED then 0x80 ≤ b2 && b2 < 0xA0
  else contB b2

/-- The allowed second byte of a 4-byte sequence. -/
def cont3ok (b b2 : ℕ) : Bool :=
  if b = 0xF0 then 0x90 ≤ b2 && b2 < 0xC0
  else if b = 0xF4 then 0x80 ≤ b2 && b2 < 0x90
  else contB b2

/-- Scanner of `decodeIgnore`, structurally recursive on a fuel argument
set to the byte count (each step consumes at least one byte). -/
def decodeIgnoreF : ℕ → List ℕ → Str
  | 0, _ => []
  | _, [] => []
  | fuel + 1, b :: rest =>
    if b < 0x80 then Char.ofNat b :: decodeIgnoreF fuel rest
    else if 0xC2 ≤ b ∧ b ≤ 0xDF then
      match rest with
      | b2 :: rest2 =>
        if contB b2 then
          Char.ofNat ((b - 0xC0) * 64 + (b2 - 0x80)) :: decodeIgnoreF fuel rest2
        else decodeIgnoreF fuel (b2 :: rest2)
      | [] => []
    else if 0xE0 ≤ b ∧ b ≤ 0xEF then
      match rest with
      | b2 :: b3 :: rest3 =>
        if cont2ok b b2 ∧ contB b3 then
          Char.ofNat ((b - 0xE0) * 4096 + (b2 - 0x80) * 64 + (b3 - 0x80)) ::
            decodeIgnoreF fuel rest3
        else decodeIgnoreF fuel (b2 :: b3 :: rest3)
      | [b2] => decodeIgnoreF fuel [b2]
      | [] => []
    else if 0xF0 ≤ b ∧ b ≤ 0xF4 then
      match rest with
      | b2 :: b3 :: b4 :: rest4 =>
        if cont3ok b b2 ∧ contB b3 ∧ contB b4 then
          Char.ofNat ((b - 0xF0) * 262144 + (b2 - 0x80) * 4096 +
              (b3 - 0x80) * 64 + (b4 - 0x80)) :: decodeIgnoreF fuel rest4
        else decodeIgnoreF fuel (b2 :: b3 :: b4 :: rest4)
      | [b2, b3] => decodeIgnoreF fuel [b2, b3]
      | [b2] => decodeIgnoreF fuel [b2]
      | [] => []
    else decodeIgnoreF fuel rest

/-- `bytes.decode("utf-8", errors="ignore")`: decode UTF-8, skipping bytes
of invalid sequences. Total -- this decoding never raises. -/
def decodeIgnore (data : List ℕ) : Str := decodeIgnoreF data.length data

/-- The decode attempt as the source wraps it: `try: return
data.decode("utf-8", errors="ignore") except: raise` — the decode is total,
so this always succeeds. -/
def decodeIgnoreE (data : List ℕ) : Except Unit Str := Except.ok (decodeIgnore data)

/-- What one parsing library call did: raised (`fail`) or produced the
per-page (fitz) or per-paragraph (python-docx) texts. -/
inductive ParseOutcome where
  | fail
  | ok (parts : List Str)

/-- `extract_text(file)` of utils/parser.py, over the uploaded bytes, the
lowercased filename and the two library outcomes. An `Except.error` value
would model an exception escaping to the caller. -/
def extract_text (filename : Str) (data : List ℕ)
    (pdfOut docxOut : ParseOutcome) : Except Unit Str :=
  let fn := lowerL filename
  if sfxOf (lit ".pdf") fn then
    match pdfOut with
    | ParseOutcome.ok pages =>
      Except.ok (stripL (joinWith (lit "\n") (pages.filter (fun p => p ≠ []))))
    | ParseOutcome.fail =>
      match decodeIgnoreE data with
      | Except.ok s => Except.ok s
      | Except.error e => Except.error e
  else if sfxOf (lit ".docx") fn ∨ sfxOf (lit ".doc") fn then
    match docxOut with
    | ParseOutcome.ok paras =>
      Except.ok (stripL (joinWith (lit "\n") (paras.filter (fun p => stripL p ≠ []))))
    | ParseOutcome.fail =>
      match decodeIgnoreE data with
      | Except.ok s => Except.ok s
      | Except.error _ => Except.ok []
  else
    match decodeIgnoreE data with
    | Except.ok s => Except.ok s
    | Except.error _ => Except.ok []

/-- `Except.isOk`, spelled out. -/
def exceptOk : Except Unit Str → Bool
  | Except.ok _ => true
  | Except.error _ => false

end Parser

namespace Scorer

/-- Tokenizer modelled from the claim's words: "alphanumeric, plus, hash,
dot, hyphen sequences of length >= 2" — the character class with digits
that the spec describes (the source's class has no digits). -/
def clsSpecAlnum (c : Char) : Bool :=
  c.isAlphanum || c == '+' || c == '#' || c == '.' || c == '-'

/-- The candidate tokenization the claim describes: alphanumeric-class runs
of length at least 2 in the lowercased job text, deduplicated preserving
first occurrence. -/
def jdUniqueSpecAlnum (job_desc : Str) : List Str :=
  dedupGo [] ((runsOf clsSpecAlnum (lowerL job_desc)).filter (fun t => 2 ≤ t.length))

/-- The amended character class: alphabetic (upper or lower case letter)
or one of `+ # . -`, written independently of `clsJd`. -/
def clsSpecAlpha (c : Char) : Bool :=
  c.isUpper || c.isLower || c == '+' || c == '#' || c == '.' || c == '-'

/-- The amended candidate tokenization: alphabetic-class runs of length at
least 2 in the lowercased job text, deduplicated preserving first
occurrence. -/
def jdUniqueSpecAlpha (job_desc : Str) : List Str :=
  dedupGo [] ((runsOf clsSpecAlpha (lowerL job_desc)).filter (fun t => 2 ≤ t.length))

end Scorer

namespace Nlp

/-- Collapse the early-return distinction of `commonPhase`. -/
def sumOut : List Str ⊕ List Str → List Str
  | Sum.inl f => f
  | Sum.inr f => f

/-- The invariant of the fallback extractor's accumulator: no duplicates,
and every token is a dictionary entry or a tech-like token of length at
least 3. -/
def extractorInv (f : List Str) : Prop :=
  f.Nodup ∧ ∀ t ∈ f, t ∈ COMMON_SKILLS ∨ 3 ≤ t.length

end Nlp

/-! ## Helper lemmas -/

theorem lowerL_append (a b : Str) : lowerL (a ++ b) = lowerL a ++ lowerL b :=
  List.map_append ..

theorem lowerL_length (s : Str) : (lowerL s).length = s.length :=
  List.length_map ..

theorem pfxOf_append (n h t : Str) (hp : pfxOf n h = true) : pfxOf n (h ++ t) = true := by
  induction n generalizing h with
  | nil => rfl
  | cons a as ih =>
    cases h with
    | nil => simp [pfxOf] at hp
    | cons b bs =>
      simp only [pfxOf, Bool.and_eq_true] at hp ⊢
      exact ⟨hp.1, ih bs hp.2⟩

theorem hasSub_append (n h t : Str) (hs : hasSub n h = true) : hasSub n (h ++ t) = true := by
  induction h with
  | nil =>
    simp only [hasSub, List.isEmpty_iff] at hs
    subst hs
    cases t with
    | nil => rfl
    | cons c cs => simp [hasSub, pfxOf]
  | cons c cs ih =>
    simp only [hasSub, Bool.or_eq_true] at hs ⊢
    cases hs with
    | inl hp => exact Or.inl (pfxOf_append _ _ t hp)
    | inr hr => exact Or.inr (ih hr)

theorem pfxOf_decomp (p t : Str) (hp : pfxOf p t = true) :
    t = p ++ t.drop p.length := by
  induction p generalizing t with
  | nil => simp
  | cons a as ih =>
    cases t with
    | nil => simp [pfxOf] at hp
    | cons b bs =>
      simp only [pfxOf, Bool.and_eq_true, beq_iff_eq] at hp
      obtain ⟨rfl, h2⟩ := hp
      simpa using ih bs h2

/-! ## C1: the final-score formula of the ATS scorer -/

/-- C1. For every similarity outcome, resume text and job-description text,
the ATS scorer's final score is `0.6 * similarity + 0.4 *
presence_fraction * 100` with `presence_fraction = |matched| / max(1,
|candidates|)` (similarity defaulting to 0 when vectorization fails),
clamped to `[0, 100]` and rounded to two decimal places. -/
theorem ats_final_score_formula (sim : Option ℚ) (resume_text job_desc : Str) :
    (Scorer.ats_score_local sim resume_text job_desc).ats_score =
      round2 (clamp100 (0.6 * sim.getD 0 +
        0.4 * (((Scorer.atsMatched resume_text job_desc).length : ℚ) /
          ((max 1 (Scorer.jd_unique job_desc).length : ℕ) : ℚ)) * 100)) := rfl

/-! ## C2: matched and missing partition the candidate set -/

/-- C2. In both scorers, the matched and missing collections are disjoint
and together are exactly the comparison's single candidate keyword set:
the deduplicated tokenization of the job description for
`ats_score_local`, the job profile's keyword list for
`score_against_jobs`. -/
theorem matched_missing_partition :
    (∀ resume_text job_desc k,
      (k ∈ Scorer.atsMatched resume_text job_desc →
        k ∉ Scorer.atsMissing resume_text job_desc) ∧
      (k ∈ Scorer.jd_unique job_desc ↔
        (k ∈ Scorer.atsMatched resume_text job_desc ∨
         k ∈ Scorer.atsMissing resume_text job_desc))) ∧
    (∀ sim resume_lower job k,
      (k ∈ (Scorer.scoreOne sim resume_lower job).matched →
        k ∉ (Scorer.scoreOne sim resume_lower job).missing) ∧
      (k ∈ job.keywords ↔
        (k ∈ (Scorer.scoreOne sim resume_lower job).matched ∨
         k ∈ (Scorer.scoreOne sim resume_lower job).missing))) := by
  constructor
  · intro resume_text job_desc k
    constructor
    · intro hm hM
      rw [Scorer.atsMatched, List.mem_filter] at hm
      rw [Scorer.atsMissing, List.mem_filter, Bool.not_eq_true'] at hM
      rw [hm.2] at hM
      exact Bool.true_eq_false.mp hM.2
    · simp only [Scorer.atsMatched, Scorer.atsMissing, List.mem_filter,
        Bool.not_eq_true']
      by_cases h : hasSub k (lowerL resume_text) = true <;> simp [h]
  · intro sim resume_lower job k
    constructor
    · intro hm hM
      simp only [Scorer.scoreOne, List.mem_filter] at hm hM
      rw [Bool.not_eq_true'] at hM
      rw [hm.2] at hM
      exact Bool.true_eq_false.mp hM.2
    · simp only [Scorer.scoreOne, List.mem_filter, Bool.not_eq_true']
      by_cases h : hasSub (lowerL k) resume_lower = true <;> simp [h]

/-! ## C9: monotonicity of the matched collection -/

set_option maxRecDepth 100000 in
/-- C9 counterexample. The returned `matched_keywords` list is capped at 50
entries, so appending the missing keyword "aa" to a resume that already
matches 50 of the job's 51 candidates pushes the candidate "by" out of the
returned collection: the returned matched collection of the extended
resume is not a superset of the original one. -/
theorem ats_matched_truncation_cx :
    lit "by" ∈ (Scorer.ats_score_local none
      (lit "ab ac ad ae af ag ah ai aj ak al am an ao ap aq ar as at au av aw ax ay az ba bb bc bd be bf bg bh bi bj bk bl bm bn bo bp bq br bs bt bu bv bw bx by")
      (lit "aa ab ac ad ae af ag ah ai aj ak al am an ao ap aq ar as at au av aw ax ay az ba bb bc bd be bf bg bh bi bj bk bl bm bn bo bp bq br bs bt bu bv bw bx by")).matched_keywords ∧
    lit "by" ∉ (Scorer.ats_score_local none
      (lit "ab ac ad ae af ag ah ai aj ak al am an ao ap aq ar as at au av aw ax ay az ba bb bc bd be bf bg bh bi bj bk bl bm bn bo bp bq br bs bt bu bv bw bx by" ++
        lit " " ++ joinWith (lit " ") (Scorer.atsMissing
          (lit "ab ac ad ae af ag ah ai aj ak al am an ao ap aq ar as at au av aw ax ay az ba bb bc bd be bf bg bh bi bj bk bl bm bn bo bp bq br bs bt bu bv bw bx by")
          (lit "aa ab ac ad ae af ag ah ai aj ak al am an ao ap aq ar as at au av aw ax ay az ba bb bc bd be bf bg bh bi bj bk bl bm bn bo bp bq br bs bt bu bv bw bx by")))
      (lit "aa ab ac ad ae af ag ah ai aj ak al am an ao ap aq ar as at au av aw ax ay az ba bb bc bd be bf bg bh bi bj bk bl bm bn bo bp bq br bs bt bu bv bw bx by")).matched_keywords := by
  decide

/-- C9 as amended. The matched keyword list computed before the 50-entry
truncation is monotone: every keyword matched against the original resume
is still matched once the missing keywords are appended to it. -/
theorem ats_matched_monotone (resume_text job_desc k : Str)
    (h : k ∈ Scorer.atsMatched resume_text job_desc) :
    k ∈ Scorer.atsMatched
      (resume_text ++ lit " " ++ joinWith (lit " ") (Scorer.atsMissing resume_text job_desc))
      job_desc := by
  rw [Scorer.atsMatched, List.mem_filter] at h ⊢
  refine ⟨h.1, ?_⟩
  rw [List.append_assoc, lowerL_append]
  exact hasSub_append _ _ _ h.2

/-- Witness for the amended C9 at a concrete input. -/
theorem ats_matched_monotone_witness :
    lit "python" ∈ Scorer.atsMatched
      (lit "python" ++ lit " " ++
        joinWith (lit " ") (Scorer.atsMissing (lit "python") (lit "python")))
      (lit "python") :=
  ats_matched_monotone (lit "python") (lit "python") (lit "python") (by decide)

/-! ## C3: the dictionary matcher is word-boundary aware -/

theorem lastOr_none (pre : Str) : App.lastOr none pre = pre.getLast? := by
  cases h : pre.getLast? <;> simp [App.lastOr, h]

theorem lastOr_cons (prev : Option Char) (c : Char) (pre : Str) :
    App.lastOr prev (c :: pre) = App.lastOr (some c) pre := by
  cases pre with
  | nil => simp [App.lastOr]
  | cons d ds =>
    cases h : (d :: ds).getLast? with
    | none => simp at h
    | some e => simp [App.lastOr, List.getLast?_cons_cons, h]

theorem matchHere_sound (phrase : Str) (prev : Option Char) (t : Str)
    (h : App.matchHere phrase prev t = true) :
    ∃ post, t = phrase ++ post ∧ bAt prev phrase.head? = true ∧
      bAt phrase.getLast? post.head? = true := by
  rw [App.matchHere, Bool.and_eq_true, Bool.and_eq_true] at h
  exact ⟨t.drop phrase.length, pfxOf_decomp _ _ h.1.1, h.1.2, h.2⟩

theorem litSearch_sound (phrase : Str) : ∀ t prev,
    App.litSearch phrase prev t = true →
    ∃ pre post, t = pre ++ phrase ++ post ∧
      bAt (App.lastOr prev pre) phrase.head? = true ∧
      bAt phrase.getLast? post.head? = true := by
  intro t
  induction t with
  | nil =>
    intro prev h
    obtain ⟨post, heq, h1, h2⟩ := matchHere_sound phrase prev [] h
    exact ⟨[], post, by simpa using heq, h1, h2⟩
  | cons c rest ih =>
    intro prev h
    rw [App.litSearch, Bool.or_eq_true] at h
    cases h with
    | inl hm =>
      obtain ⟨post, heq, h1, h2⟩ := matchHere_sound phrase prev (c :: rest) hm
      exact ⟨[], post, by simpa using heq, h1, h2⟩
    | inr hr =>
      obtain ⟨pre, post, heq, h1, h2⟩ := ih (some c) hr
      refine ⟨c :: pre, post, by simp [heq], ?_, h2⟩
      rwa [lastOr_cons]

/-- C3. The dictionary matcher finds a phrase only at a word-boundary
delimited occurrence in the lowercased text, not by raw substring
containment; in particular "java" is a raw substring of the lowercased
"javascript developer" and yet is not reported. -/
theorem dictionary_word_boundary :
    (∀ skill text, skill ∈ App.extract_skills_from_text text →
      App.BoundaryOccur skill (lowerL text)) ∧
    hasSub (lit "java") (lowerL (lit "javascript developer")) = true ∧
    lit "java" ∉ App.extract_skills_from_text (lit "javascript developer") := by
  refine ⟨?_, by decide, by decide⟩
  intro skill text h
  rw [App.extract_skills_from_text, List.mem_filter] at h
  obtain ⟨pre, post, heq, h1, h2⟩ := litSearch_sound skill (lowerL text) none h.2
  exact ⟨pre, post, heq, by rwa [lastOr_none] at h1, h2⟩

/-! ## C4: the candidate tokenization of the ATS scorer -/

/-- C4 counterexample. The source tokenizer's character class has no
digits: on the job text "python3" it produces the candidate "python",
while the claim's alphanumeric class would produce "python3". -/
theorem jd_tokenizer_alnum_cx :
    Scorer.jd_unique (lit "python3") = [lit "python"] ∧
    Scorer.jdUniqueSpecAlnum (lit "python3") = [lit "python3"] := by decide

/-- C4 as amended. The ATS scorer tokenizes the job text into alphabetic
(not alphanumeric) runs extended with `+ # . -`, of length at least 2, in
the lowercased text, deduplicated preserving first-occurrence order; on
the end-to-end scenario the candidates are exactly looking, for, python,
sql, docker, expert, with python and sql matched and docker missing. -/
theorem jd_tokenizer_amended :
    (∀ job_desc, Scorer.jd_unique job_desc = Scorer.jdUniqueSpecAlpha job_desc) ∧
    Scorer.jd_unique (lit "Looking for Python, SQL, Docker expert") =
      [lit "looking", lit "for", lit "python", lit "sql", lit "docker", lit "expert"] ∧
    Scorer.atsMatched (lit "Experienced Python developer with SQL and AWS background")
      (lit "Looking for Python, SQL, Docker expert") = [lit "python", lit "sql"] ∧
    lit "docker" ∈ Scorer.atsMissing
      (lit "Experienced Python developer with SQL and AWS background")
      (lit "Looking for Python, SQL, Docker expert") := by
  refine ⟨?_, by decide, by decide, by decide⟩
  intro job_desc
  have hc : Scorer.clsSpecAlpha = Scorer.clsJd := by
    funext c
    cases hu : c.isUpper <;>
      simp [Scorer.clsSpecAlpha, Scorer.clsJd, Char.isAlpha, hu]
  rw [Scorer.jdUniqueSpecAlpha, Scorer.jd_unique, Scorer.jd_keywords, hc]

/-! ## C8: the catalog matcher ranks, truncates and keeps catalog order -/

theorem length_insertDesc (x : Scorer.MatchResult) (l : List Scorer.MatchResult) :
    (Scorer.insertDesc x l).length = l.length + 1 := by
  induction l with
  | nil => rfl
  | cons y ys ih =>
    rw [Scorer.insertDesc]
    split
    · simp
    · simp [ih]

theorem length_sortDesc (l : List Scorer.MatchResult) :
    (Scorer.sortDesc l).length = l.length := by
  induction l with
  | nil => rfl
  | cons x xs ih => rw [Scorer.sortDesc, length_insertDesc, ih, List.length_cons]

theorem mem_insertDesc (z x : Scorer.MatchResult) (l : List Scorer.MatchResult) :
    z ∈ Scorer.insertDesc x l ↔ z = x ∨ z ∈ l := by
  induction l with
  | nil => simp [Scorer.insertDesc]
  | cons y ys ih =>
    rw [Scorer.insertDesc]
    split
    · simp [or_comm, or_assoc, or_left_comm]
    · simp only [List.mem_cons, ih]
      tauto

theorem pairwise_insertDesc (x : Scorer.MatchResult) (l : List Scorer.MatchResult)
    (h : l.Pairwise (fun a b => b.score ≤ a.score)) :
    (Scorer.insertDesc x l).Pairwise (fun a b => b.score ≤ a.score) := by
  induction l with
  | nil => simp [Scorer.insertDesc]
  | cons y ys ih =>
    rw [List.pairwise_cons] at h
    rw [Scorer.insertDesc]
    split
    · rename_i hyx
      rw [List.pairwise_cons]
      refine ⟨?_, List.pairwise_cons.mpr h⟩
      intro z hz
      rcases List.mem_cons.mp hz with rfl | hz'
      · exact hyx
      · exact le_trans (h.1 z hz') hyx
    · rename_i hyx
      rw [List.pairwise_cons]
      refine ⟨?_, ih h.2⟩
      intro z hz
      rcases (mem_insertDesc z x ys).mp hz with rfl | hz'
      · exact le_of_lt (lt_of_not_le hyx)
      · exact h.1 z hz'

theorem pairwise_sortDesc (l : List Scorer.MatchResult) :
    (Scorer.sortDesc l).Pairwise (fun a b => b.score ≤ a.score) := by
  induction l with
  | nil => simp [Scorer.sortDesc]
  | cons x xs ih => exact pairwise_insertDesc x _ ih

theorem filter_insertDesc (s : ℚ) (x : Scorer.MatchResult) (l : List Scorer.MatchResult) :
    (Scorer.insertDesc x l).filter (fun r => decide (r.score = s)) =
      if x.score = s then x :: l.filter (fun r => decide (r.score = s))
      else l.filter (fun r => decide (r.score = s)) := by
  induction l with
  | nil => by_cases hx : x.score = s <;> simp [Scorer.insertDesc, hx]
  | cons y ys ih =>
    rw [Scorer.insertDesc]
    split
    · by_cases hx : x.score = s <;> simp [List.filter_cons, hx]
    · rename_i hyx
      by_cases hx : x.score = s
      · have hy : ¬(y.score = s) := by
          intro hcon
          exact hyx (by rw [hcon, hx])
        simp [List.filter_cons, hy, hx, ih]
      · simp [List.filter_cons, ih, hx]

theorem filter_sortDesc (s : ℚ) (l : List Scorer.MatchResult) :
    (Scorer.sortDesc l).filter (fun r => decide (r.score = s)) =
      l.filter (fun r => decide (r.score = s)) := by
  induction l with
  | nil => rfl
  | cons x xs ih =>
    rw [Scorer.sortDesc, filter_insertDesc]
    by_cases hx : x.score = s <;> simp [List.filter_cons, hx, ih]

/-- C8. The catalog matcher returns the per-profile results in
non-increasing score order, truncated to the top `n` (so a 10-profile
catalog with the default `n = 6` yields exactly 6 results), and the sort
is stable: filtering the sorted results at any score value gives the
profiles in original catalog order. -/
theorem catalog_ranking (sim : Option (Str → ℚ)) (resume_text : Str)
    (jobs_db : List Scorer.Job) (n : ℕ) :
    (Scorer.score_against_jobs sim resume_text jobs_db n).Pairwise
      (fun a b => b.score ≤ a.score) ∧
    (Scorer.score_against_jobs sim resume_text jobs_db n).length = min n jobs_db.length ∧
    (∀ s : ℚ,
      (Scorer.sortDesc (jobs_db.map (Scorer.scoreOne sim (lowerL resume_text)))).filter
          (fun r => decide (r.score = s)) =
        (jobs_db.map (Scorer.scoreOne sim (lowerL resume_text))).filter
          (fun r => decide (r.score = s))) ∧
    (jobs_db.length = 10 →
      (Scorer.score_against_jobs sim resume_text jobs_db 6).length = 6) := by
  refine ⟨?_, ?_, fun s => filter_sortDesc s _, ?_⟩
  · exact (pairwise_sortDesc _).sublist (List.take_sublist ..)
  · rw [Scorer.score_against_jobs, List.length_take, length_sortDesc, List.length_map]
  · intro h
    rw [Scorer.score_against_jobs, List.length_take, length_sortDesc, List.length_map, h]
    rfl

/-! ## C10: the zero-job-skills guard of the app-level scorer -/

/-- C10. When the dictionary recognizes no skill in the job description,
the app-level scorer's guard returns score 0 with empty matched and
missing sets instead of dividing by zero. -/
theorem app_ats_zero_guard (resume_text job_desc : Str)
    (h : App.extract_skills_from_text job_desc = []) :
    (App.ats_score_local resume_text job_desc).ats_score = 0 ∧
    (App.ats_score_local resume_text job_desc).matched_skills = [] ∧
    (App.ats_score_local resume_text job_desc).missing_skills = [] := by
  simp [App.ats_score_local, h, App.sortStrs]

/-- Witness for C10 at a concrete input: the job description "xyz"
contains no dictionary skill. -/
theorem app_ats_zero_guard_witness :
    (App.ats_score_local (lit "python") (lit "xyz")).ats_score = 0 ∧
    (App.ats_score_local (lit "python") (lit "xyz")).matched_skills = [] ∧
    (App.ats_score_local (lit "python") (lit "xyz")).missing_skills = [] :=
  app_ats_zero_guard (lit "python") (lit "xyz") (by decide)

/-! ## C7: text extraction never raises -/

/-- C7. Text extraction is total: for every filename, byte content and
parser outcomes, the result is `Except.ok`; when a parser fails the
function falls through to the best-effort UTF-8 decode of the raw bytes,
and empty content yields the empty string rather than an exception. -/
theorem extract_text_never_raises (filename : Str) (data : List ℕ)
    (pdfOut docxOut : Parser.ParseOutcome) :
    Parser.exceptOk (Parser.extract_text filename data pdfOut docxOut) = true ∧
    Parser.extract_text filename data Parser.ParseOutcome.fail Parser.ParseOutcome.fail =
      Except.ok (Parser.decodeIgnore data) ∧
    Parser.extract_text filename [] Parser.ParseOutcome.fail Parser.ParseOutcome.fail =
      Except.ok [] := by
  have h3 : Parser.decodeIgnore [] = [] := rfl
  refine ⟨?_, ?_, ?_⟩ <;>
    unfold Parser.extract_text Parser.decodeIgnoreE <;>
    by_cases h1 : sfxOf (lit ".pdf") (lowerL filename) = true <;>
    by_cases h2 : sfxOf (lit ".docx") (lowerL filename) = true ∨
      sfxOf (lit ".doc") (lowerL filename) = true <;>
    cases pdfOut <;> cases docxOut <;>
    simp [h1, h2, h3, Parser.exceptOk]

/-! ## C5: invariants of the skill extractors -/

theorem nodupSnoc (l : List Str) (a : Str) (h : l.Nodup) (ha : a ∉ l) :
    (l ++ [a]).Nodup := by
  rw [List.nodup_append]
  refine ⟨h, List.nodup_singleton a, ?_⟩
  intro x hx hxa
  rw [List.mem_singleton] at hxa
  subst hxa
  exact ha hx

theorem commonPhase_inv (tl : Str) (maxk : ℕ) :
    ∀ (skills found : List Str), Nlp.extractorInv found →
      (∀ s ∈ skills, s ∈ Nlp.COMMON_SKILLS) →
      Nlp.extractorInv (Nlp.sumOut (Nlp.commonPhase tl maxk skills found)) := by
  intro skills
  induction skills with
  | nil => intro found hf _; exact hf
  | cons sk rest ih =>
    intro found hf hs
    simp only [Nlp.commonPhase]
    split
    · rename_i hcond
      have hf' : Nlp.extractorInv (found ++ [sk]) := by
        refine ⟨nodupSnoc _ _ hf.1 hcond.2, ?_⟩
        intro t ht
        rcases List.mem_append.mp ht with htl | htr
        · exact hf.2 t htl
        · rw [List.mem_singleton] at htr
          subst htr
          exact Or.inl (hs t (List.mem_cons_self t rest))
      split
      · exact hf'
      · exact ih (found ++ [sk]) hf' (fun s hs' => hs s (List.mem_cons_of_mem _ hs'))
    · exact ih found hf (fun s hs' => hs s (List.mem_cons_of_mem _ hs'))

theorem tokenPhase_inv (maxk : ℕ) :
    ∀ (toks found : List Str), Nlp.extractorInv found →
      (∀ t ∈ toks, 3 ≤ t.length) →
      Nlp.extractorInv (Nlp.tokenPhase maxk toks found) := by
  intro toks
  induction toks with
  | nil => intro found hf _; exact hf
  | cons t ts ih =>
    intro found hf ht
    have hts : ∀ u ∈ ts, 3 ≤ u.length := fun u hu => ht u (List.mem_cons_of_mem _ hu)
    simp only [Nlp.tokenPhase]
    split
    · rename_i hcond
      split
      · exact ih found hf hts
      · refine ih _ ⟨nodupSnoc _ _ hf.1 hcond.1, ?_⟩ hts
        intro u hu
        rcases List.mem_append.mp hu with hul | hur
        · exact hf.2 u hul
        · rw [List.mem_singleton] at hur
          subst hur
          refine Or.inr ?_
          rw [lowerL_length]
          exact ht t (List.mem_cons_self t ts)
    · exact ih found hf hts

theorem pickGo_bounds (run : Str) (after : Option Char) :
    ∀ k m, Nlp.pickGo run after k = some m → 3 ≤ m ∧ m ≤ k := by
  intro k
  induction k with
  | zero => intro m h; simp [Nlp.pickGo] at h
  | succ k ih =>
    intro m h
    rw [Nlp.pickGo] at h
    split at h
    · rename_i hcond
      cases h
      exact ⟨hcond.1, le_refl _⟩
    · obtain ⟨h3, hk⟩ := ih m h
      exact ⟨h3, le_trans hk (Nat.le_succ k)⟩

theorem scan3_length : ∀ (fuel : ℕ) (prev : Option Char) (s t : Str),
    t ∈ Nlp.scan3 fuel prev s → 3 ≤ t.length := by
  intro fuel
  induction fuel with
  | zero => intro prev s t h; simp [Nlp.scan3] at h
  | succ fuel ih =>
    intro prev s t h
    cases s with
    | nil => simp [Nlp.scan3] at h
    | cons c rest =>
      simp only [Nlp.scan3] at h
      split at h
      · split at h
        · rename_i m hpick
          rcases List.mem_cons.mp h with rfl | hrec
          · obtain ⟨h3, hle⟩ := pickGo_bounds _ _ _ m hpick
            rw [List.length_take]
            omega
          · exact ih _ _ _ hrec
        · exact ih _ _ _ h
      · exact ih _ _ _ h

theorem findall3_length (s : Str) : ∀ t ∈ Nlp.findall3 s, 3 ≤ t.length :=
  fun t ht => scan3_length s.length none s t ht

/-- C5 counterexample. The fallback extractor's dictionary contains the
one-character skill "c", so on the input "c" it returns a token of length
1, below the claimed 2-character minimum. -/
theorem fallback_short_token_cx :
    lit "c" ∈ Nlp.simple_skill_extractor (lit "c") 30 ∧ (lit "c").length < 2 := by
  decide

/-- C5 as amended. Both extractors return duplicate-free lists with no
empty token; every token of the fallback extractor is a dictionary entry
(allowing the one-character entry "c") or a tech-like token of length at
least 3, and every token of the dictionary matcher is a known skill, all
of which have length at least 3. -/
theorem extractors_invariant (text : Str) (maxk : ℕ) :
    (Nlp.simple_skill_extractor text maxk).Nodup ∧
    (∀ t ∈ Nlp.simple_skill_extractor text maxk,
      t ≠ [] ∧ (t ∈ Nlp.COMMON_SKILLS ∨ 3 ≤ t.length)) ∧
    (App.extract_skills_from_text text).Nodup ∧
    (∀ t ∈ App.extract_skills_from_text text,
      t ∈ App.KNOWN_SKILLS ∧ 3 ≤ t.length) := by
  have hcommon : ∀ s ∈ Nlp.COMMON_SKILLS, s ≠ ([] : Str) := by decide
  have hknown : ∀ t ∈ App.KNOWN_SKILLS, 3 ≤ t.length := by decide
  have hknodup : App.KNOWN_SKILLS.Nodup := by decide
  have hinv : Nlp.extractorInv (Nlp.simple_skill_extractor text maxk) := by
    rw [Nlp.simple_skill_extractor]
    have hcp := commonPhase_inv (lowerL text) maxk Nlp.COMMON_SKILLS []
      ⟨List.nodup_nil, by simp⟩ (fun s hs => hs)
    cases hcase : Nlp.commonPhase (lowerL text) maxk Nlp.COMMON_SKILLS [] with
    | inl f =>
      rw [hcase] at hcp
      exact hcp
    | inr f =>
      rw [hcase] at hcp
      have htp := tokenPhase_inv maxk (Nlp.findall3 text) f hcp (findall3_length text)
      exact ⟨htp.1.sublist (List.take_sublist ..),
        fun t ht => htp.2 t (List.take_subset _ _ ht)⟩
  refine ⟨hinv.1, ?_, List.Nodup.filter _ hknodup, ?_⟩
  · intro t ht
    rcases hinv.2 t ht with hmem | hlen
    · exact ⟨hcommon t hmem, Or.inl hmem⟩
    · refine ⟨?_, Or.inr hlen⟩
      intro hnil
      rw [hnil] at hlen
      simp at hlen
  · intro t ht
    rw [App.extract_skills_from_text, List.mem_filter] at ht
    exact ⟨ht.1, hknown t ht.1⟩

/-! ## C6: the external extractor degrades to empty on failure -/

/-- C6. When the external call fails — network error or timeout, HTTP
status at least 400, unparsable body, or a JSON record with an `error`
field — the model-backed extractor returns the empty list (it never
raises: it is a total function), and the skill-extraction entry point
falls back to the local fallback extractor. -/
theorem hf_failure_returns_empty (token : Option Str) (outcome : Nlp.HfOutcome)
    (text : Str) (maxk : ℕ) (h : Nlp.FailingOutcome outcome) :
    Nlp.call_hf_keyphrase_model token outcome text maxk = [] ∧
    Nlp.extract_skills_from_text token outcome text maxk =
      (if stripL text = [] then []
       else Nlp.simple_skill_extractor (stripL text) maxk) := by
  have hcall : ∀ t : Str, Nlp.call_hf_keyphrase_model token outcome t maxk = [] := by
    intro t
    cases token with
    | none => rfl
    | some tk =>
      cases outcome with
      | netErr => rfl
      | resp status body =>
        simp only [Nlp.FailingOutcome] at h
        by_cases hst : 400 ≤ status
        · simp [Nlp.call_hf_keyphrase_model, hst]
        · rcases h with h400 | hnone | ⟨fields, hbody, f, hf, hferr⟩
          · exact absurd h400 hst
          · subst hnone
            simp [Nlp.call_hf_keyphrase_model, hst]
          · subst hbody
            have herr : fields.any (fun f => decide (f.1 = lit "error")) = true :=
              List.any_eq_true.mpr ⟨f, hf, by simp [hferr]⟩
            simp [Nlp.call_hf_keyphrase_model, hst, herr]
  refine ⟨hcall text, ?_⟩
  rw [Nlp.extract_skills_from_text.eq_def]
  by_cases hstrip : stripL text = []
  · simp [hstrip]
  · cases token with
    | none => simp [hstrip]
    | some tk => simp [hstrip, hcall (stripL text)]

/-- Witness for C6 at a concrete input: a network error with a configured
token on the text "python". -/
theorem hf_failure_returns_empty_witness :
    Nlp.call_hf_keyphrase_model (some (lit "tk")) Nlp.HfOutcome.netErr
      (lit "python") 30 = [] ∧
    Nlp.extract_skills_from_text (some (lit "tk")) Nlp.HfOutcome.netErr
      (lit "python") 30 =
      (if stripL (lit "python") = [] then []
       else Nlp.simple_skill_extractor (stripL (lit "python")) 30) :=
  hf_failure_returns_empty (some (lit "tk")) Nlp.HfOutcome.netErr
    (lit "python") 30 trivial

end ResumeMate
